import Mathlib

/-!
Shallow embedding of the `testing_workshop` repository
(`src/testing_workshop/i_need_testing.py`, `metrics.py`, `model.py`).

Python strings are modelled as `List Char`; bytes as `List Nat`.
Side effects (ORM session calls, HTTP requests, file handles) are made
observable through explicit event traces returned alongside results.
-/

namespace TestingWorkshop

/-! ### Meme pipeline (`i_need_testing.py`) -/

/-- ASCII fragment of the whitespace class used by Python `str.split()`
(space, tab, newline, carriage return, vertical tab, form feed). -/
def isPySpace (c : Char) : Bool :=
  c == ' ' || c == '\t' || c == '\n' || c == '\r' || c == '\x0b' || c == '\x0c'

/-- Worker for `pySplit`: `acc` holds the (reversed) word currently being read. -/
def splitAux : List Char → List Char → List (List Char)
  | [], acc => if acc = [] then [] else [acc.reverse]
  | c :: cs, acc =>
    if isPySpace c then
      if acc = [] then splitAux cs [] else acc.reverse :: splitAux cs []
    else splitAux cs (c :: acc)

/-- Python `quote.split()`: split on runs of whitespace, dropping empty pieces. -/
def pySplit (s : List Char) : List (List Char) := splitAux s []

/-- Python `' '.join(words)`. -/
def joinSpace : List (List Char) → List Char
  | [] => []
  | [w] => w
  | w :: w' :: ws => w ++ ' ' :: joinSpace (w' :: ws)

/-- `generate_meme_headings` of `i_need_testing.py`: split the quote in half
word-wise, first half (floor) on top, remainder on the bottom, each half
rejoined with single spaces. -/
def generate_meme_headings (quote : List Char) : List Char × List Char :=
  let words := pySplit quote
  let half := words.length / 2
  let top_text := joinSpace (words.take half)
  let bottom_text := joinSpace (words.drop half)
  (top_text, bottom_text)

/-! ### Lemmas about `pySplit` / `joinSpace` -/

theorem splitAux_nonspace (w : List Char) (hw : ∀ c ∈ w, isPySpace c = false) :
    ∀ rest acc, splitAux (w ++ rest) acc = splitAux rest (w.reverse ++ acc) := by
  induction w with
  | nil => intro rest acc; simp
  | cons c w ih =>
    intro rest acc
    have hc : isPySpace c = false := hw c (by simp)
    simp only [List.cons_append, splitAux, hc, Bool.false_eq_true, if_false]
    show splitAux (w ++ rest) (c :: acc) = splitAux rest ((c :: w).reverse ++ acc)
    rw [ih (fun x hx => hw x (by simp [hx]))]
    simp

theorem splitAux_space (c : Char) (hc : isPySpace c = true) (rest acc : List Char) :
    splitAux (c :: rest) acc =
      if acc = [] then splitAux rest [] else acc.reverse :: splitAux rest [] := by
  simp only [splitAux, hc, if_true]

theorem pySplit_word (w : List Char) (hne : w ≠ [])
    (hw : ∀ c ∈ w, isPySpace c = false) : pySplit w = [w] := by
  have h := splitAux_nonspace w hw [] []
  simp only [List.append_nil] at h
  unfold pySplit
  rw [h]
  have hr : w.reverse ≠ [] := by simpa using hne
  simp [splitAux, hr]

theorem pySplit_word_space (w t : List Char) (hne : w ≠ [])
    (hw : ∀ c ∈ w, isPySpace c = false) :
    pySplit (w ++ ' ' :: t) = w :: pySplit t := by
  unfold pySplit
  rw [splitAux_nonspace w hw (' ' :: t) []]
  simp only [List.append_nil]
  rw [splitAux_space ' ' rfl]
  have hr : w.reverse ≠ [] := by simpa using hne
  simp [hr]

/-- Rejoining whitespace-free nonempty words with single spaces and re-splitting
recovers the words. -/
theorem pySplit_joinSpace (ws : List (List Char))
    (h : ∀ w ∈ ws, w ≠ [] ∧ ∀ c ∈ w, isPySpace c = false) :
    pySplit (joinSpace ws) = ws := by
  induction ws with
  | nil => rfl
  | cons w tail ih =>
    cases tail with
    | nil =>
      show pySplit (joinSpace [w]) = [w]
      exact pySplit_word w (h w (by simp)).1 (h w (by simp)).2
    | cons w' ws' =>
      show pySplit (w ++ ' ' :: joinSpace (w' :: ws')) = w :: (w' :: ws')
      rw [pySplit_word_space w _ (h w (by simp)).1 (h w (by simp)).2]
      rw [ih (fun x hx => h x (by simp [hx]))]

theorem splitAux_good (s : List Char) : ∀ acc, (∀ c ∈ acc, isPySpace c = false) →
    ∀ w ∈ splitAux s acc, w ≠ [] ∧ ∀ c ∈ w, isPySpace c = false := by
  induction s with
  | nil =>
    intro acc hacc w hw
    simp only [splitAux] at hw
    by_cases h : acc = []
    · simp [h] at hw
    · simp only [h, if_false] at hw
      simp only [List.mem_singleton] at hw
      subst hw
      refine ⟨by simpa using h, fun c hc => hacc c (by simpa using hc)⟩
  | cons c cs ih =>
    intro acc hacc w hw
    simp only [splitAux] at hw
    cases hc : isPySpace c with
    | true =>
      rw [hc] at hw
      simp only [if_true] at hw
      by_cases ha : acc = []
      · rw [if_pos ha] at hw
        exact ih [] (by simp) w hw
      · rw [if_neg ha] at hw
        rcases List.mem_cons.mp hw with hw | hw
        · subst hw
          refine ⟨by simpa using ha, fun x hx => hacc x (by simpa using hx)⟩
        · exact ih [] (by simp) w hw
    | false =>
      rw [hc] at hw
      simp only [Bool.false_eq_true, if_false] at hw
      refine ih (c :: acc) ?_ w hw
      intro x hx
      rcases List.mem_cons.mp hx with rfl | hx
      · exact hc
      · exact hacc x hx

/-- Every word produced by `pySplit` is nonempty and whitespace-free. -/
theorem pySplit_good (s : List Char) :
    ∀ w ∈ pySplit s, w ≠ [] ∧ ∀ c ∈ w, isPySpace c = false :=
  splitAux_good s [] (by simp)

/-- The word sequences of the two headings are exactly the two halves of the
quote's word sequence. -/
theorem gmh_words (q : List Char) :
    pySplit (generate_meme_headings q).1 = (pySplit q).take ((pySplit q).length / 2) ∧
    pySplit (generate_meme_headings q).2 = (pySplit q).drop ((pySplit q).length / 2) := by
  constructor
  · show pySplit (joinSpace ((pySplit q).take ((pySplit q).length / 2))) = _
    exact pySplit_joinSpace _ (fun w hw => pySplit_good q w (List.take_subset _ _ hw))
  · show pySplit (joinSpace ((pySplit q).drop ((pySplit q).length / 2))) = _
    exact pySplit_joinSpace _ (fun w hw => pySplit_good q w (List.drop_subset _ _ hw))

/-- `construct_meme_url` of `i_need_testing.py`:
`f"https://apimeme.com/meme?meme=\x7bmeme_name\x7d&top=\x7btop_text\x7d&bottom=\x7bbottom_text\x7d"`. -/
def construct_meme_url (meme_name top_text bottom_text : List Char) : List Char :=
  "https://apimeme.com/meme?meme=".toList ++ meme_name ++ "&top=".toList ++
    top_text ++ "&bottom=".toList ++ bottom_text

/-- The fixed template list `memes` of `generate_meme`. -/
def memes : List (List Char) :=
  ["10-Guy".toList,
   "Advice-Dog".toList,
   "Actual-Advice-Mallard".toList,
   "Ancient-Aliens".toList,
   "Albert-Cagestein".toList,
   "Bad-Joke-Eel".toList,
   "1990s-First-World-Problems".toList,
   "American-Chopper-Argument".toList,
   "Back-In-My-Day".toList,
   "Awkward-Moment-Sealion".toList,
   "Castaway-Fire".toList]

/-- `generate_meme` of `i_need_testing.py`. `random.choice(memes)` is modelled
by an injected index into `memes`; the HTTP layer (`requests.get`) by an
injected oracle from URL to response bytes. Returns the response content
(`meme.content`) together with the trace of requested URLs. -/
def generate_meme (httpGet : List Char → List Nat) (randIdx : Fin memes.length)
    (top_text bottom_text : List Char) : List Nat × List (List Char) :=
  let random_meme := memes.get randIdx
  let url := construct_meme_url random_meme top_text bottom_text
  (httpGet url, [url])

/-- File-handle events observable from `save_meme`. -/
inductive FileEv
  | fopen (path : List Char) (mode : List Char)
  | fwrite (data : List Nat)
  | fclose
  deriving DecidableEq

/-- `save_meme` of `i_need_testing.py`: `f = open('meme.jpg', 'wb')` then
`f.write(meme)`. The function body contains no `close` and no `with` block,
so the emitted trace is exactly one open followed by one write. -/
def save_meme (meme : List Nat) : List FileEv :=
  [FileEv.fopen "meme.jpg".toList "wb".toList, FileEv.fwrite meme]

/-- `get_random_quote` of `i_need_testing.py`: `quote.json()[0]['q']`.
The HTTP/JSON layer is modelled by an injected outcome: either a transport
error or the decoded list of quote texts (the `q` fields); indexing `[0]`
into an empty list fails. -/
def get_random_quote (resp : Except String (List (List Char))) :
    Except String (List Char) :=
  match resp with
  | .error e => .error e
  | .ok [] => .error "list index out of range"
  | .ok (q :: _) => .ok q

/-- `create_meme` of `i_need_testing.py`: fetch quote, split headings, render,
save — in strict sequence. A failing fetch propagates (Python exception),
so no meme request is issued and no file event happens. Returns the outcome
together with the trace of rendered-meme request URLs and of file events. -/
def create_meme (resp : Except String (List (List Char)))
    (httpGet : List Char → List Nat) (randIdx : Fin memes.length) :
    Except String Unit × List (List Char) × List FileEv :=
  match get_random_quote resp with
  | .error e => (.error e, [], [])
  | .ok quote =>
    let headings := generate_meme_headings quote
    let meme := generate_meme httpGet randIdx headings.1 headings.2
    (.ok (), meme.2, save_meme meme.1)

/-! ### Metric store (`metrics.py`, over the `Metric` model of `model.py`) -/

/-- The `Metric` row of `model.py` (`name` text, `value` integer); the
store-assigned `id` plays no role in any helper and is omitted. -/
structure Metric where
  name : List Char
  value : Int
  deriving DecidableEq

/-- The table contents, in insertion order. -/
abbrev DB := List Metric

/-- Observable store events: session opening, `session.add`,
`session.commit`, plus call markers for `insert_metric_normalized_name`
(the mock spied on by the repository's own tests). -/
inductive Ev
  | sessionOpen
  | sessionAdd (m : Metric)
  | sessionCommit
  | insertNormalizedCall (arg : Option Metric)
  deriving DecidableEq

/-- Discriminator: is this event a call to `insert_metric_normalized_name`? -/
def Ev.isInsertCall : Ev → Bool
  | .insertNormalizedCall _ => true
  | _ => false

/-- Argument extractor for `session.add` events. -/
def Ev.addArg : Ev → Option Metric
  | .sessionAdd m => some m
  | _ => none

/-- Python `str.lower()` (ASCII fragment). -/
def lower (s : List Char) : List Char := s.map Char.toLower

/-- `insert_metrics` of `metrics.py`: one session, `add` per metric in order,
one commit. Returns the updated table and the event trace. -/
def insert_metrics (metrics : List Metric) (db : DB) : DB × List Ev :=
  (db ++ metrics, Ev.sessionOpen :: metrics.map Ev.sessionAdd ++ [Ev.sessionCommit])

/-- `find_metric_by_name` of `metrics.py`:
`session.query(Metric).filter(Metric.name == name).first()` — first row whose
`name` equals the argument exactly, or `None`. -/
def find_metric_by_name (name : List Char) (db : DB) : Option Metric :=
  db.find? (fun m => m.name == name)

/-- `insert_metric_normalized_name` of `metrics.py`. The parameter is
`Option Metric` because Python is dynamically typed and the caller
`find_and_square_metric` passes `None` when the lookup misses: there
`metric.name` raises `AttributeError` after the session was opened.
On a real metric the record's `name` is lower-cased in place (the mutated
record is returned as the `.ok` payload, modelling the caller's view of its
object), added as a new row, and committed. -/
def insert_metric_normalized_name (metric : Option Metric) (db : DB) :
    Except String Metric × DB × List Ev :=
  match metric with
  | none =>
    (.error "AttributeError: NoneType object has no attribute name", db,
     [Ev.sessionOpen])
  | some m =>
    let m' : Metric := { m with name := lower m.name }
    (.ok m', db ++ [m'], [Ev.sessionOpen, Ev.sessionAdd m', Ev.sessionCommit])

/-- `find_and_square_metric` of `metrics.py`: look up by name; if found,
square `value` in place; then unconditionally call
`insert_metric_normalized_name` on the (possibly `None`) record and return
it. The returned record reflects both in-place mutations (squared value and
lower-cased name). -/
def find_and_square_metric (name : List Char) (db : DB) :
    Except String (Option Metric) × DB × List Ev :=
  let metric : Option Metric :=
    match find_metric_by_name name db with
    | some m => some { m with value := m.value ^ 2 }
    | none => none
  let r := insert_metric_normalized_name metric db
  match r.1 with
  | .error e => (.error e, r.2.1, Ev.insertNormalizedCall metric :: r.2.2)
  | .ok m' => (.ok (some m'), r.2.1, Ev.insertNormalizedCall metric :: r.2.2)

/-! ### Claim theorems -/

/-- C2: for every quote string, `generate_meme_headings` returns a pair
`(top, bottom)` whose word sequences concatenate to the word sequence of the
quote in the original order, with `top` holding exactly
`(number of words) / 2` words (floor division); in particular
`generate_meme_headings "a b c" = ("a", "b c")` and
`generate_meme_headings "" = ("", "")`. -/
theorem split_heading_spec :
    (∀ q : List Char,
       pySplit (generate_meme_headings q).1 ++ pySplit (generate_meme_headings q).2 =
         pySplit q ∧
       (pySplit (generate_meme_headings q).1).length = (pySplit q).length / 2) ∧
    generate_meme_headings "a b c".toList = ("a".toList, "b c".toList) ∧
    generate_meme_headings "".toList = ("".toList, "".toList) := by
  refine ⟨fun q => ?_, by decide, by decide⟩
  obtain ⟨h1, h2⟩ := gmh_words q
  rw [h1, h2]
  refine ⟨List.take_append_drop _ _, ?_⟩
  rw [List.length_take]
  exact Nat.min_eq_left (Nat.div_le_self _ _)

/-- C10: the bottom heading always holds at least as many words as the top
heading, and at most one more; for a one-word quote the top heading is empty
and the bottom heading is that word. -/
theorem split_heading_balanced :
    (∀ q : List Char,
       (pySplit (generate_meme_headings q).1).length ≤
         (pySplit (generate_meme_headings q).2).length ∧
       (pySplit (generate_meme_headings q).2).length ≤
         (pySplit (generate_meme_headings q).1).length + 1) ∧
    (∀ q w, pySplit q = [w] → generate_meme_headings q = ([], w)) := by
  constructor
  · intro q
    obtain ⟨h1, h2⟩ := gmh_words q
    rw [h1, h2, List.length_take, List.length_drop]
    omega
  · intro q w h
    show (joinSpace ((pySplit q).take ((pySplit q).length / 2)),
          joinSpace ((pySplit q).drop ((pySplit q).length / 2))) = ([], w)
    rw [h]
    norm_num [joinSpace]

/-- Witness for C10 at the one-word quote `"hi"`. -/
theorem split_heading_balanced_witness :
    pySplit "hi".toList = ["hi".toList] ∧
      generate_meme_headings "hi".toList = ([], "hi".toList) :=
  ⟨by decide, split_heading_balanced.2 _ _ (by decide)⟩

/-- C4: for every pair of texts (and every injected randomness and HTTP
oracle), `generate_meme` selects its template from the fixed set of exactly
eleven names, and the single request URL it issues literally is
`<endpoint> ++ "meme=" ++ <name> ++ "&top=" ++ <top> ++ "&bottom=" ++ <bottom>`,
so the substrings `meme=`, `&top=`, `&bottom=` occur in that order. -/
theorem generate_meme_url_spec (httpGet : List Char → List Nat)
    (i : Fin memes.length) (top_text bottom_text : List Char) :
    memes.length = 11 ∧
    ∃ nm, nm ∈ memes ∧
      (generate_meme httpGet i top_text bottom_text).2 =
        ["https://apimeme.com/meme?".toList ++ "meme=".toList ++ nm ++
         "&top=".toList ++ top_text ++ "&bottom=".toList ++ bottom_text] := by
  refine ⟨rfl, memes.get i, List.get_mem _ _ _, ?_⟩
  show [construct_meme_url (memes.get i) top_text bottom_text] = _
  unfold construct_meme_url
  have hsplit : ("https://apimeme.com/meme?meme=".toList : List Char) =
      "https://apimeme.com/meme?".toList ++ "meme=".toList := by decide
  rw [hsplit]

/-- C5: if the quote-fetch stage fails (transport error or bad response
shape), `create_meme` aborts with that failure, issuing no meme request and
no file event — in particular the writer is never invoked. -/
theorem create_meme_abort_spec (resp : Except String (List (List Char)))
    (httpGet : List Char → List Nat) (i : Fin memes.length) (e : String)
    (h : get_random_quote resp = Except.error e) :
    create_meme resp httpGet i = (Except.error e, [], []) := by
  unfold create_meme
  rw [h]

/-- Witness for C5: an empty quote collection fails the fetch stage and
`create_meme` aborts with no requests and no file events. -/
theorem create_meme_abort_spec_witness :
    get_random_quote (Except.ok []) = Except.error "list index out of range" ∧
    create_meme (Except.ok []) (fun _ => []) ⟨0, by decide⟩ =
      (Except.error "list index out of range", [], []) :=
  ⟨rfl, create_meme_abort_spec _ _ _ _ rfl⟩

/-- C9 counterexample: at the concrete payload `[1, 2, 3]`, the complete
file-event trace of `save_meme` is one open of `meme.jpg` (mode `wb`)
followed by one write — it contains no handle-release event, refuting
"releases the handle on every exit path". -/
theorem save_meme_no_release :
    save_meme [1, 2, 3] =
      [FileEv.fopen "meme.jpg".toList "wb".toList, FileEv.fwrite [1, 2, 3]] ∧
    (save_meme [1, 2, 3]).count FileEv.fclose = 0 := by
  exact ⟨rfl, rfl⟩

/-- C9 (amended): for every byte payload, `save_meme` acquires a writable
handle at the fixed path `meme.jpg` and writes the bytes in full, but it
performs no explicit release of the handle. -/
theorem save_meme_spec (meme : List Nat) :
    save_meme meme =
      [FileEv.fopen "meme.jpg".toList "wb".toList, FileEv.fwrite meme] ∧
    (save_meme meme).count FileEv.fclose = 0 :=
  ⟨rfl, rfl⟩

theorem filterMap_addArg_map (ms : List Metric) :
    List.filterMap (Ev.addArg ∘ Ev.sessionAdd) ms = ms := by
  induction ms with
  | nil => rfl
  | cons m ms ih => simp [Function.comp, Ev.addArg, ih]

theorem count_sessionOpen_map_add (ms : List Metric) :
    (ms.map Ev.sessionAdd).count Ev.sessionOpen = 0 := by
  induction ms with
  | nil => rfl
  | cons m ms ih => simp [List.count_cons, ih]

theorem count_sessionCommit_map_add (ms : List Metric) :
    (ms.map Ev.sessionAdd).count Ev.sessionCommit = 0 := by
  induction ms with
  | nil => rfl
  | cons m ms ih => simp [List.count_cons, ih]

/-- C7: `insert_metrics` opens exactly one session, performs exactly the
`add` calls for the input records in their original order, commits exactly
once, and appends the records to the table; on the empty list the trace is
one open and one commit with zero adds. -/
theorem insert_metrics_spec (metrics : List Metric) (db : DB) :
    ((insert_metrics metrics db).2.count Ev.sessionOpen = 1 ∧
     (insert_metrics metrics db).2.filterMap Ev.addArg = metrics ∧
     (insert_metrics metrics db).2.count Ev.sessionCommit = 1 ∧
     (insert_metrics metrics db).1 = db ++ metrics) ∧
    (insert_metrics [] db).2 = [Ev.sessionOpen, Ev.sessionCommit] := by
  refine ⟨⟨?_, ?_, ?_, rfl⟩, rfl⟩
  · show (Ev.sessionOpen :: (metrics.map Ev.sessionAdd ++ [Ev.sessionCommit])).count
        Ev.sessionOpen = 1
    simp [List.count_cons, List.count_append, count_sessionOpen_map_add]
  · show (Ev.sessionOpen :: (metrics.map Ev.sessionAdd ++ [Ev.sessionCommit])).filterMap
        Ev.addArg = metrics
    simp [List.filterMap_cons, List.filterMap_append, filterMap_addArg_map, Ev.addArg]
  · show (Ev.sessionOpen :: (metrics.map Ev.sessionAdd ++ [Ev.sessionCommit])).count
        Ev.sessionCommit = 1
    simp [List.count_cons, List.count_append, count_sessionCommit_map_add]

theorem find?_first {α : Type} (p : α → Bool) (l : List α) (a : α)
    (h : l.find? p = some a) :
    p a = true ∧ ∃ pre post, l = pre ++ a :: post ∧ ∀ x ∈ pre, p x = false := by
  induction l with
  | nil => simp [List.find?] at h
  | cons b l ih =>
    cases hb : p b with
    | true =>
      rw [List.find?_cons_of_pos _ hb] at h
      cases h
      exact ⟨hb, [], l, rfl, by simp⟩
    | false =>
      rw [List.find?_cons_of_neg _ (by simp [hb])] at h
      obtain ⟨hp, pre, post, heq, hpre⟩ := ih h
      refine ⟨hp, b :: pre, post, by rw [heq]; rfl, ?_⟩
      intro x hx
      rcases List.mem_cons.mp hx with rfl | hx
      · exact hb
      · exact hpre x hx

/-- C8: `find_metric_by_name` returns `none` exactly when no row's `name`
equals the queried name (exact, case-sensitive equality — no normalization on
lookup), and when it returns a record, that record's `name` equals the query
exactly and it is the first such row: every earlier row has a different name. -/
theorem find_metric_by_name_spec (name : List Char) (db : DB) :
    (find_metric_by_name name db = none ↔ ∀ m ∈ db, m.name ≠ name) ∧
    (∀ m, find_metric_by_name name db = some m →
       m.name = name ∧
       ∃ pre post, db = pre ++ m :: post ∧ ∀ x ∈ pre, x.name ≠ name) := by
  constructor
  · rw [find_metric_by_name, List.find?_eq_none]
    constructor
    · intro h m hm
      simpa using h m hm
    · intro h m hm
      simpa using h m hm
  · intro m hm
    obtain ⟨hp, pre, post, heq, hpre⟩ := find?_first _ _ _ hm
    refine ⟨by simpa using hp, pre, post, heq, fun x hx => by simpa using hpre x hx⟩

/-- Witness for C8: a store holding only `Metric("Foo", 1)` yields no match
for the query `"foo"` — lookup is case-sensitive and does not normalize. -/
theorem find_metric_by_name_spec_witness :
    find_metric_by_name "foo".toList [⟨"Foo".toList, 1⟩] = none :=
  (find_metric_by_name_spec "foo".toList [⟨"Foo".toList, 1⟩]).1.mpr (by decide)

/-- C6: `insert_metric_normalized_name` on a real record lower-cases the
record's `name` in place (the caller's record, returned as the `.ok`
payload, carries the lower-cased name), appends it as a new row — leaving
every existing row untouched, never updating one — and commits once. -/
theorem insert_metric_normalized_name_spec (m : Metric) (db : DB) :
    insert_metric_normalized_name (some m) db =
      (Except.ok { m with name := lower m.name },
       db ++ [{ m with name := lower m.name }],
       [Ev.sessionOpen, Ev.sessionAdd { m with name := lower m.name },
        Ev.sessionCommit]) := rfl

/-- C3: when the lookup finds a record, `find_and_square_metric` returns a
record whose `value` is the original value squared, the store gains exactly
the one new row with the lower-cased name and squared value, and exactly one
`insert_metric_normalized_name` call occurs. -/
theorem find_and_square_metric_present (name : List Char) (db : DB) (m : Metric)
    (h : find_metric_by_name name db = some m) :
    (find_and_square_metric name db).1 =
      Except.ok (some { name := lower m.name, value := m.value ^ 2 }) ∧
    (find_and_square_metric name db).2.1 =
      db ++ [{ name := lower m.name, value := m.value ^ 2 }] ∧
    (find_and_square_metric name db).2.2.countP Ev.isInsertCall = 1 := by
  unfold find_and_square_metric
  rw [h]
  exact ⟨rfl, rfl, rfl⟩

/-- Witness for C3: on a store holding `Metric("Foo", 3)`, looking up
`"Foo"` succeeds and `find_and_square_metric` returns value `9` under name
`"foo"`, appending that row, with one normalized-insert call. -/
theorem find_and_square_metric_present_witness :
    (find_and_square_metric "Foo".toList [⟨"Foo".toList, 3⟩]).1 =
      Except.ok (some { name := lower "Foo".toList, value := (3 : Int) ^ 2 }) ∧
    (find_and_square_metric "Foo".toList [⟨"Foo".toList, 3⟩]).2.1 =
      [⟨"Foo".toList, 3⟩] ++ [{ name := lower "Foo".toList, value := (3 : Int) ^ 2 }] ∧
    (find_and_square_metric "Foo".toList [⟨"Foo".toList, 3⟩]).2.2.countP
      Ev.isInsertCall = 1 :=
  find_and_square_metric_present "Foo".toList [⟨"Foo".toList, 3⟩]
    ⟨"Foo".toList, 3⟩ (by decide)

/-- C1 (code-bug evidence): at the concrete absent name `"missing"` over the
empty store, `find_and_square_metric` does not surface a clean not-found
result with zero insert calls: it performs exactly one
`insert_metric_normalized_name` call — with argument `None` — and that call
raises `AttributeError`. -/
theorem find_and_square_metric_absent_attempts_insert :
    (find_and_square_metric "missing".toList []).2.2.countP Ev.isInsertCall = 1 ∧
    Ev.insertNormalizedCall none ∈ (find_and_square_metric "missing".toList []).2.2 ∧
    (find_and_square_metric "missing".toList []).1 =
      Except.error "AttributeError: NoneType object has no attribute name" := by
  exact ⟨rfl, by decide, rfl⟩

end TestingWorkshop
